import Mathlib

/-!
Verification of the Audacity module/plugin loading contract declared in
`include/audacity/ModuleInterface.h`.

The header is a pure interface: `ModuleInterface` is an abstract class whose
virtual operations (`Initialize`, `Terminate`, `FileExtensions`, `InstallPath`,
`AutoRegisterPlugins`, `FindPluginPaths`, `DiscoverPluginsAtPath`,
`IsPluginValid`, `CreateInstance`, `DeleteInstance`) carry documentation
comments but no bodies; the host-side loader and concrete modules live
elsewhere.  The development below embeds the contract: the lifecycle state
machine a host must respect, reference models of the behavioural obligations
the documentation places on conforming modules, and the build-time
registration machinery (`MODULE_ENTRY`, `DECLARE_BUILTIN_MODULE`,
`RegisterBuiltinModule`).
-/

namespace AudacityModule

/-! ## Lifecycle state machine -/

/-- Lifecycle states of a loaded module.  `constructed` is the state right
after the module object is created, `initFailed` is the state after
`Initialize` returned `false`. -/
inductive LifecycleState
  | constructed
  | initialized
  | initFailed
  | terminated
  | unloaded
deriving DecidableEq, Repr, Fintype

/-- Operations a host can direct at a module.  Identity queries come from the
`IdentInterface` base class; the rest are the virtual operations of
`ModuleInterface`, plus the final unload of the library. -/
inductive ModuleOp
  | identQuery
  | initializeOp (success : Bool)
  | terminateOp
  | fileExtensionsOp
  | installPathOp
  | autoRegisterPluginsOp
  | findPluginPathsOp
  | discoverPluginsAtPathOp
  | isPluginValidOp
  | createInstanceOp
  | deleteInstanceOp
  | unloadOp
deriving DecidableEq, Repr, Fintype

/-- The discovery and instantiation operations of `ModuleInterface`. -/
def isDiscoveryOp : ModuleOp → Bool
  | .fileExtensionsOp => true
  | .installPathOp => true
  | .autoRegisterPluginsOp => true
  | .findPluginPathsOp => true
  | .discoverPluginsAtPathOp => true
  | .isPluginValidOp => true
  | .createInstanceOp => true
  | .deleteInstanceOp => true
  | _ => false

def isInitializeOp : ModuleOp → Bool
  | .initializeOp _ => true
  | _ => false

def isTerminateOp : ModuleOp → Bool
  | .terminateOp => true
  | _ => false

/-- Modelled from the spec: the host-side calling discipline for
`ModuleInterface` (the loader driving it is not part of the header).
`Initialize` is called exactly once immediately after construction, before any
other operation except identity queries; on failure only unload may follow;
discovery and instantiation operations are valid only in the initialized
state; `Terminate` is called exactly once, only after a successful
`Initialize`, as the last operation before unload. -/
def stepOp : LifecycleState → ModuleOp → Option LifecycleState
  | .constructed, .identQuery => some .constructed
  | .constructed, .initializeOp b => some (if b then .initialized else .initFailed)
  | .initialized, .identQuery => some .initialized
  | .initialized, .terminateOp => some .terminated
  | .initialized, op => if isDiscoveryOp op then some .initialized else none
  | .terminated, .unloadOp => some .unloaded
  | .initFailed, .unloadOp => some .unloaded
  | _, _ => none

/-- Run a sequence of host operations from a given lifecycle state; `none`
means the sequence violated the calling discipline. -/
def runTrace : LifecycleState → List ModuleOp → Option LifecycleState
  | s, [] => some s
  | s, op :: ops =>
    match stepOp s op with
    | some t => runTrace t ops
    | none => none

/-- A host session with the module, from construction onwards. -/
def execTrace (t : List ModuleOp) : Option LifecycleState :=
  runTrace .constructed t

theorem runTrace_append (s : LifecycleState) (a b : List ModuleOp) :
    runTrace s (a ++ b) = (runTrace s a).bind (fun m => runTrace m b) := by
  induction a generalizing s with
  | nil => simp [runTrace]
  | cons op ops ih =>
    simp only [List.cons_append, runTrace]
    cases h : stepOp s op with
    | none => simp
    | some m => simpa using ih m

/-- Per-step fact: a discovery or instantiation operation is only accepted in
the `initialized` state, and leaves the module in it. -/
theorem stepOp_discovery : ∀ s m : LifecycleState, ∀ op : ModuleOp,
    stepOp s op = some m → isDiscoveryOp op = true →
    s = .initialized ∧ m = .initialized := by decide

/-- Per-step fact: `Terminate` is only accepted in `initialized` and moves to
`terminated`. -/
theorem stepOp_terminate : ∀ s m : LifecycleState,
    stepOp s .terminateOp = some m →
    s = .initialized ∧ m = .terminated := by decide

/-- Per-step fact: `Initialize` is only accepted in `constructed`. -/
theorem stepOp_initializeCall : ∀ s m : LifecycleState, ∀ b : Bool,
    stepOp s (.initializeOp b) = some m →
    s = .constructed ∧ m = (if b then .initialized else .initFailed) := by decide

/-- Per-step fact: the only step that stays in (or returns to) `constructed`
is an identity query from `constructed`. -/
theorem stepOp_to_constructed : ∀ s : LifecycleState, ∀ op : ModuleOp,
    stepOp s op = some .constructed →
    s = .constructed ∧ op = .identQuery := by decide

/-- Per-step fact: nothing is accepted in the `unloaded` state. -/
theorem stepOp_from_unloaded : ∀ op : ModuleOp, stepOp .unloaded op = none := by decide

/-- Per-step fact: from `terminated` only unload is accepted. -/
theorem stepOp_from_terminated : ∀ op : ModuleOp, ∀ m : LifecycleState,
    stepOp .terminated op = some m → op = .unloadOp ∧ m = .unloaded := by decide

/-- Per-step fact: from `initFailed` only unload is accepted. -/
theorem stepOp_from_initFailed : ∀ op : ModuleOp, ∀ m : LifecycleState,
    stepOp .initFailed op = some m → op = .unloadOp ∧ m = .unloaded := by decide

/-- Per-step fact: from `initialized`, a step either stays there via an
identity query or a discovery operation, or moves to `terminated` via
`Terminate`. -/
theorem stepOp_from_initialized : ∀ op : ModuleOp, ∀ m : LifecycleState,
    stepOp .initialized op = some m →
    (m = .initialized ∧ (op = .identQuery ∨ isDiscoveryOp op = true)) ∨
    (m = .terminated ∧ op = .terminateOp) := by decide

/-- `constructed` is left exactly by the one `Initialize` call: counting
weight 1 on `constructed` and 0 elsewhere, each accepted step pays the weight
difference with an `Initialize`. -/
def initWeight : LifecycleState → Nat
  | .constructed => 1
  | _ => 0

theorem stepOp_initWeight : ∀ s m : LifecycleState, ∀ op : ModuleOp,
    stepOp s op = some m →
    (if isInitializeOp op then 1 else 0) + initWeight m = initWeight s := by decide

theorem runTrace_countInit (t : List ModuleOp) (s s' : LifecycleState)
    (h : runTrace s t = some s') :
    t.countP isInitializeOp + initWeight s' = initWeight s := by
  induction t generalizing s with
  | nil =>
    simp only [runTrace, Option.some.injEq] at h
    simp [h]
  | cons op ops ih =>
    simp only [runTrace] at h
    cases hs : stepOp s op with
    | none => rw [hs] at h; exact absurd h (by simp)
    | some m =>
      rw [hs] at h
      have hw := stepOp_initWeight s m op hs
      have hrec := ih m h
      rw [List.countP_cons]
      by_cases hop : isInitializeOp op = true
      · simp only [hop, if_pos] at hw ⊢
        omega
      · have hb : isInitializeOp op = false := by simpa using hop
        simp only [hb] at hw ⊢
        simp only [Bool.false_eq_true, if_false] at hw ⊢
        omega

/-- A run that ends back in `constructed` started there and consisted solely
of identity queries. -/
theorem runTrace_constructed (t : List ModuleOp) (s : LifecycleState)
    (h : runTrace s t = some .constructed) :
    s = .constructed ∧ ∀ op ∈ t, op = .identQuery := by
  induction t generalizing s with
  | nil =>
    simp only [runTrace, Option.some.injEq] at h
    exact ⟨h.symm ▸ rfl, by simp⟩
  | cons op ops ih =>
    simp only [runTrace] at h
    cases hs : stepOp s op with
    | none => rw [hs] at h; exact absurd h (by simp)
    | some m =>
      rw [hs] at h
      obtain ⟨hm, hall⟩ := ih m h
      subst hm
      obtain ⟨hsc, hq⟩ := stepOp_to_constructed s op hs
      exact ⟨hsc, by
        intro u hu
        rcases List.mem_cons.mp hu with h1 | h2
        · exact h1 ▸ hq
        · exact hall u h2⟩

/-- Nothing is accepted after unload. -/
theorem runTrace_unloaded (t : List ModuleOp) (s : LifecycleState)
    (h : runTrace .unloaded t = some s) : t = [] ∧ s = .unloaded := by
  cases t with
  | nil =>
    simp only [runTrace, Option.some.injEq] at h
    exact ⟨rfl, h.symm⟩
  | cons op ops =>
    exfalso
    simp [runTrace, stepOp_from_unloaded op] at h

/-- From `terminated`, the only complete continuation is the single unload. -/
theorem runTrace_terminated (t : List ModuleOp)
    (h : runTrace .terminated t = some .unloaded) : t = [.unloadOp] := by
  cases t with
  | nil => simp [runTrace] at h
  | cons op ops =>
    simp only [runTrace] at h
    cases hs : stepOp .terminated op with
    | none => rw [hs] at h; exact absurd h (by simp)
    | some m =>
      rw [hs] at h
      obtain ⟨ho, hm⟩ := stepOp_from_terminated op m hs
      subst ho; subst hm
      have := (runTrace_unloaded ops _ h).1
      simp [this]

/-- From `initFailed`, the only complete continuation is the single unload. -/
theorem runTrace_initFailed (t : List ModuleOp)
    (h : runTrace .initFailed t = some .unloaded) : t = [.unloadOp] := by
  cases t with
  | nil => simp [runTrace] at h
  | cons op ops =>
    simp only [runTrace] at h
    cases hs : stepOp .initFailed op with
    | none => rw [hs] at h; exact absurd h (by simp)
    | some m =>
      rw [hs] at h
      obtain ⟨ho, hm⟩ := stepOp_from_initFailed op m hs
      subst ho; subst hm
      have := (runTrace_unloaded ops _ h).1
      simp [this]

/-- From `initialized`, a complete continuation is a block of identity
queries and discovery operations followed by exactly `Terminate` then
unload. -/
theorem runTrace_initialized (t : List ModuleOp)
    (h : runTrace .initialized t = some .unloaded) :
    ∃ mid, t = mid ++ [.terminateOp, .unloadOp] ∧
      ∀ op ∈ mid, op = .identQuery ∨ isDiscoveryOp op = true := by
  induction t with
  | nil => simp [runTrace] at h
  | cons op ops ih =>
    simp only [runTrace] at h
    cases hs : stepOp .initialized op with
    | none => rw [hs] at h; exact absurd h (by simp)
    | some m =>
      rw [hs] at h
      rcases stepOp_from_initialized op m hs with ⟨hm, hkind⟩ | ⟨hm, hkind⟩
      · subst hm
        obtain ⟨mid, hmid, hall⟩ := ih h
        refine ⟨op :: mid, by simp [hmid], ?_⟩
        intro u hu
        rcases List.mem_cons.mp hu with h1 | h2
        · exact h1 ▸ hkind
        · exact hall u h2
      · subst hm; subst hkind
        have := runTrace_terminated ops h
        exact ⟨[], by simp [this], by simp⟩

/-- Splitting a complete session at one operation yields the state before it,
the step it takes, and a complete continuation after it. -/
theorem execTrace_split (t pre suf : List ModuleOp) (op : ModuleOp)
    (ht : t = pre ++ op :: suf) (h : execTrace t = some .unloaded) :
    ∃ m k, runTrace .constructed pre = some m ∧ stepOp m op = some k ∧
      runTrace k suf = some .unloaded := by
  subst ht
  unfold execTrace at h
  rw [runTrace_append] at h
  cases hp : runTrace .constructed pre with
  | none => rw [hp] at h; exact absurd h (by simp)
  | some m =>
    rw [hp] at h
    have h2 : runTrace m (op :: suf) = some .unloaded := h
    simp only [runTrace] at h2
    cases hs : stepOp m op with
    | none => rw [hs] at h2; exact absurd h2 (by simp)
    | some k =>
      rw [hs] at h2
      exact ⟨m, k, rfl, hs, h2⟩

/-- A list of identity queries contains no `Initialize`, `Terminate`,
discovery or instantiation calls. -/
theorem countP_eq_zero_of_identQuery (l : List ModuleOp)
    (hall : ∀ op ∈ l, op = ModuleOp.identQuery) (p : ModuleOp → Bool)
    (hp : p .identQuery = false) : l.countP p = 0 := by
  refine List.countP_eq_zero.mpr (fun a ha => ?_)
  rw [hall a ha, hp]
  simp

theorem isTerminateOp_of_discovery : ∀ op : ModuleOp,
    isDiscoveryOp op = true → isTerminateOp op = false := by decide

/-- C1: in every complete host session (a trace of operations accepted by the
calling discipline from construction to unload), `Initialize` is called
exactly once; every operation before it is an identity query; `Terminate` is
called exactly once when `Initialize` returned true and never when it
returned false; every discovery or instantiation operation
(`FileExtensions`, `InstallPath`, `AutoRegisterPlugins`, `FindPluginPaths`,
`DiscoverPluginsAtPath`, `IsPluginValid`, `CreateInstance`,
`DeleteInstance`) happens with the module in the `initialized` state; and
`Terminate` is the last operation before unload. -/
theorem lifecycle_state_machine (t : List ModuleOp)
    (h : execTrace t = some LifecycleState.unloaded) :
    t.countP isInitializeOp = 1 ∧
    (∀ pre b suf, t = pre ++ ModuleOp.initializeOp b :: suf →
      (∀ op ∈ pre, op = ModuleOp.identQuery) ∧
      t.countP isTerminateOp = (if b then 1 else 0)) ∧
    (∀ pre op suf, t = pre ++ op :: suf → isDiscoveryOp op = true →
      runTrace LifecycleState.constructed pre = some LifecycleState.initialized) ∧
    (∀ pre suf, t = pre ++ ModuleOp.terminateOp :: suf → suf = [ModuleOp.unloadOp]) := by
  refine ⟨?_, ?_, ?_, ?_⟩
  · have hcnt := runTrace_countInit t .constructed .unloaded h
    simpa [initWeight] using hcnt
  · intro pre b suf ht
    obtain ⟨m, k, hpre, hstep, hsuf⟩ := execTrace_split t pre suf _ ht h
    obtain ⟨hm, hk⟩ := stepOp_initializeCall m k b hstep
    subst hm
    obtain ⟨-, hall⟩ := runTrace_constructed pre .constructed hpre
    refine ⟨hall, ?_⟩
    have hz : pre.countP isTerminateOp = 0 :=
      countP_eq_zero_of_identQuery pre hall _ rfl
    subst ht
    rw [List.countP_append, List.countP_cons, hz]
    cases b with
    | false =>
      simp only [if_false, Bool.false_eq_true] at hk
      subst hk
      have hs1 := runTrace_initFailed suf hsuf
      subst hs1
      simp [isTerminateOp]
    | true =>
      simp only [if_pos] at hk
      subst hk
      obtain ⟨mid, hmid, hops⟩ := runTrace_initialized suf hsuf
      subst hmid
      have hz2 : mid.countP isTerminateOp = 0 := by
        refine List.countP_eq_zero.mpr (fun a ha => ?_)
        rcases hops a ha with h1 | h1
        · rw [h1]; simp [isTerminateOp]
        · rw [isTerminateOp_of_discovery a h1]; simp
      rw [List.countP_append, hz2]
      simp [isTerminateOp]
  · intro pre op suf ht hd
    obtain ⟨m, k, hpre, hstep, -⟩ := execTrace_split t pre suf _ ht h
    obtain ⟨hm, -⟩ := stepOp_discovery m k op hstep hd
    rw [hm] at hpre
    exact hpre
  · intro pre suf ht
    obtain ⟨m, k, -, hstep, hsuf⟩ := execTrace_split t pre suf _ ht h
    obtain ⟨-, hk⟩ := stepOp_terminate m k hstep
    subst hk
    exact runTrace_terminated suf hsuf

/-- A representative complete host session used as a concrete instance of the
lifecycle theorem. -/
def demoLifecycleTrace : List ModuleOp :=
  [.identQuery, .initializeOp true, .findPluginPathsOp, .discoverPluginsAtPathOp,
   .isPluginValidOp, .createInstanceOp, .deleteInstanceOp, .terminateOp, .unloadOp]

/-- Concrete instance of `lifecycle_state_machine` on `demoLifecycleTrace`. -/
theorem lifecycle_state_machine_witness :
    execTrace demoLifecycleTrace = some LifecycleState.unloaded ∧
    (demoLifecycleTrace.countP isInitializeOp = 1 ∧
    (∀ pre b suf, demoLifecycleTrace = pre ++ ModuleOp.initializeOp b :: suf →
      (∀ op ∈ pre, op = ModuleOp.identQuery) ∧
      demoLifecycleTrace.countP isTerminateOp = (if b then 1 else 0)) ∧
    (∀ pre op suf, demoLifecycleTrace = pre ++ op :: suf → isDiscoveryOp op = true →
      runTrace LifecycleState.constructed pre = some LifecycleState.initialized) ∧
    (∀ pre suf, demoLifecycleTrace = pre ++ ModuleOp.terminateOp :: suf →
      suf = [ModuleOp.unloadOp])) :=
  ⟨by decide, lifecycle_state_machine demoLifecycleTrace (by decide)⟩

/-! ## Plugin discovery and registration

`wxString`, `PluginID` and `EffectIdentInterface` come from the included
headers (`audacity/Types.h`, `audacity/PluginInterface.h`); here they are
embedded as strings and an identity record. -/

abbrev WxString := String

abbrev PluginPath := String

abbrev PluginID := String

/-- The identity a discovered plugin presents (the `EffectIdentInterface *`
argument of the registration callback). -/
structure EffectIdent where
  effectName : String
deriving DecidableEq, Repr

/-- Host-side plugin registry: the record of `(module, plugin identity)`
registrations performed through the registration callback. -/
structure PluginRegistry where
  registered : List (Nat × EffectIdent)
deriving DecidableEq, Repr

/-- Modelled from the spec: the registration callback (defaulting to
`PluginManagerInterface::DefaultRegistrationCallback`, not part of the
header) records the plugin against the calling module and returns the
assigned plugin identifier. -/
def registerPlugin (moduleId : Nat) (ident : EffectIdent) (reg : PluginRegistry) :
    PluginID × PluginRegistry :=
  (ident.effectName, ⟨reg.registered ++ [(moduleId, ident)]⟩)

/-- A module's discovery behaviour: which plugin identities it finds at a
path, and the diagnostic text it reports there. -/
structure DiscoveryModule where
  moduleId : Nat
  pluginsAt : PluginPath → List EffectIdent
  diagnosticAt : PluginPath → WxString

/-- Result of one `DiscoverPluginsAtPath` call: the returned count, the
out-of-band error message, the registry afterwards, and the log of callback
invocations (each carrying the calling module and a discovered identity). -/
structure DiscoveryResult where
  count : Nat
  errMsg : WxString
  registry : PluginRegistry
  callbackLog : List (Nat × EffectIdent)

def discoverStep (mid : Nat) (st : PluginRegistry × List (Nat × EffectIdent))
    (ident : EffectIdent) : PluginRegistry × List (Nat × EffectIdent) :=
  ((registerPlugin mid ident st.1).2, st.2 ++ [(mid, ident)])

/-- Modelled from the spec: `DiscoverPluginsAtPath(path, errMsg, callback)`
invokes the registration callback once per discovered plugin with
`(this module, discovered plugin identity)`, fills the error-message channel
independently of success, and returns the number of plugins found (the
header's loader and concrete modules are not part of `src/`). -/
def discoverPluginsAtPath (m : DiscoveryModule) (path : PluginPath)
    (reg : PluginRegistry) : DiscoveryResult :=
  let found := m.pluginsAt path
  let final := found.foldl (discoverStep m.moduleId) (reg, [])
  { count := found.length
    errMsg := m.diagnosticAt path
    registry := final.1
    callbackLog := final.2 }

theorem discoverStep_foldl (mid : Nat) (l : List EffectIdent)
    (r : PluginRegistry) (acc : List (Nat × EffectIdent)) :
    l.foldl (discoverStep mid) (r, acc) =
      (⟨r.registered ++ l.map (fun i => (mid, i))⟩,
        acc ++ l.map (fun i => (mid, i))) := by
  induction l generalizing r acc with
  | nil => simp
  | cons a l ih =>
    simp only [List.foldl_cons, List.map_cons]
    rw [ih]
    simp [discoverStep, registerPlugin]

/-- C2: `DiscoverPluginsAtPath` returns exactly the number of plugins it
discovered, which equals the number of callback invocations, each invocation
passing the module itself and one discovered identity; a path yielding zero
plugins returns 0; and the error-message channel is independent of success —
it can be non-empty while the count is positive. -/
theorem discover_count_eq_callback_invocations (m : DiscoveryModule)
    (path : PluginPath) (reg : PluginRegistry) :
    (discoverPluginsAtPath m path reg).count =
      (discoverPluginsAtPath m path reg).callbackLog.length ∧
    (discoverPluginsAtPath m path reg).callbackLog =
      (m.pluginsAt path).map (fun i => (m.moduleId, i)) ∧
    (discoverPluginsAtPath m path reg).registry.registered =
      reg.registered ++ (m.pluginsAt path).map (fun i => (m.moduleId, i)) ∧
    (m.pluginsAt path = [] → (discoverPluginsAtPath m path reg).count = 0) ∧
    (∃ m2 p2 r2, 0 < (discoverPluginsAtPath m2 p2 r2).count ∧
      (discoverPluginsAtPath m2 p2 r2).errMsg ≠ "") := by
  refine ⟨?_, ?_, ?_, ?_, ?_⟩
  · simp [discoverPluginsAtPath, discoverStep_foldl]
  · simp [discoverPluginsAtPath, discoverStep_foldl]
  · simp [discoverPluginsAtPath, discoverStep_foldl]
  · intro hz; simp [discoverPluginsAtPath, hz]
  · refine ⟨⟨0, fun _ => [⟨"demo"⟩], fun _ => "partial failure"⟩, "somepath", ⟨[]⟩, ?_, ?_⟩
    · simp [discoverPluginsAtPath]
    · simp [discoverPluginsAtPath]

/-- Concrete instance of `discover_count_eq_callback_invocations`. -/
theorem discover_count_eq_callback_invocations_witness :
    (discoverPluginsAtPath ⟨3, fun _ => [⟨"fx1"⟩, ⟨"fx2"⟩], fun _ => "warn"⟩ "p" ⟨[]⟩).count =
      (discoverPluginsAtPath ⟨3, fun _ => [⟨"fx1"⟩, ⟨"fx2"⟩], fun _ => "warn"⟩ "p" ⟨[]⟩).callbackLog.length :=
  (discover_count_eq_callback_invocations
    ⟨3, fun _ => [⟨"fx1"⟩, ⟨"fx2"⟩], fun _ => "warn"⟩ "p" ⟨[]⟩).1

/-! ## AutoRegisterPlugins -/

/-- A module with a fixed, statically known plugin set. -/
structure StaticPluginModule where
  knownPlugins : List EffectIdent
deriving DecidableEq, Repr

/-- Modelled from the spec: `AutoRegisterPlugins(pluginManager)` attempts to
register each of the module's statically known plugins against the registry
in order, reports `false` when at least one expected plugin failed to
register, and performs no rollback of the registrations that succeeded
(`accept` is the registry's per-plugin acceptance, not part of the header). -/
def autoRegisterPlugins (accept : EffectIdent → Bool) (m : StaticPluginModule)
    (reg : List EffectIdent) : Bool × List EffectIdent :=
  m.knownPlugins.foldl
    (fun st p => if accept p then (st.1, st.2 ++ [p]) else (false, st.2))
    (true, reg)

theorem autoRegister_foldl (accept : EffectIdent → Bool) (l : List EffectIdent)
    (b : Bool) (r : List EffectIdent) :
    l.foldl (fun st p => if accept p then (st.1, st.2 ++ [p]) else (false, st.2))
        (b, r) =
      (b && l.all accept, r ++ l.filter accept) := by
  induction l generalizing b r with
  | nil => simp
  | cons a l ih =>
    simp only [List.foldl_cons, List.all_cons, List.filter_cons]
    cases ha : accept a with
    | true => rw [if_pos rfl, ih]; simp
    | false => rw [if_neg (by simp)]; rw [ih]; simp

/-- C4: when `AutoRegisterPlugins` returns `false` the registry afterwards
holds exactly the initial contents plus the plugins that registered
successfully, in order — no rollback — and at least one expected plugin
failed to register. -/
theorem autoRegister_no_rollback (accept : EffectIdent → Bool)
    (m : StaticPluginModule) (reg : List EffectIdent)
    (h : (autoRegisterPlugins accept m reg).1 = false) :
    (autoRegisterPlugins accept m reg).2 = reg ++ m.knownPlugins.filter accept ∧
    ∃ p ∈ m.knownPlugins, accept p = false := by
  constructor
  · simp [autoRegisterPlugins, autoRegister_foldl]
  · rw [autoRegisterPlugins, autoRegister_foldl] at h
    simp only [Bool.true_and] at h
    have hne : ¬ (∀ x ∈ m.knownPlugins, accept x = true) := by
      rw [← List.all_eq_true]
      simp [h]
    push_neg at hne
    obtain ⟨p, hp, hfail⟩ := hne
    exact ⟨p, hp, by simpa using hfail⟩

/-- The spec's partial-failure scenario: a module knowing three plugins of
which the second is rejected. -/
def demoStaticModule : StaticPluginModule :=
  ⟨[⟨"fx1"⟩, ⟨"bad"⟩, ⟨"fx2"⟩]⟩

def demoAccept : EffectIdent → Bool := fun p => !(p.effectName == "bad")

/-- Concrete instance of `autoRegister_no_rollback`: 2 of 3 plugins register,
the call reports failure, and the registry ends up holding exactly the 2
successfully registered plugins. -/
theorem autoRegister_no_rollback_witness :
    (autoRegisterPlugins demoAccept demoStaticModule []).1 = false ∧
    ((autoRegisterPlugins demoAccept demoStaticModule []).2 =
      [] ++ demoStaticModule.knownPlugins.filter demoAccept ∧
    ∃ p ∈ demoStaticModule.knownPlugins, demoAccept p = false) :=
  ⟨by decide, autoRegister_no_rollback demoAccept demoStaticModule [] (by decide)⟩

/-! ## Instance creation and deletion -/

/-- An instance handle produced by `CreateInstance`: it records which module
created it and a serial number distinguishing it from other instances of the
same module. -/
structure InstanceTok where
  moduleId : Nat
  serial : Nat
deriving DecidableEq, Repr

/-- The instance bookkeeping of one module: the next serial number and the
outstanding (created, not yet deleted) instances. -/
structure InstanceState where
  nextSerial : Nat
  live : List InstanceTok
deriving DecidableEq, Repr

/-- Modelled from the spec: `CreateInstance(path)` returns a newly owned
plugin instance or a failure sentinel (`none`); the instance belongs to the
creating module (no concrete module implementation is in `src/`). -/
def createInstance (mid : Nat) (ok : Bool) (st : InstanceState) :
    Option InstanceTok × InstanceState :=
  if ok then
    (some ⟨mid, st.nextSerial⟩, ⟨st.nextSerial + 1, ⟨mid, st.nextSerial⟩ :: st.live⟩)
  else
    (none, st)

/-- Modelled from the spec: `DeleteInstance(instance)` releases an instance
previously produced by `CreateInstance` on the same module; deleting a
foreign or already-deleted instance is a precondition violation (`none`). -/
def deleteInstance (mid : Nat) (tok : InstanceTok) (st : InstanceState) :
    Option InstanceState :=
  if tok.moduleId = mid ∧ tok ∈ st.live then
    some ⟨st.nextSerial, st.live.erase tok⟩
  else
    none

/-- One host action on a module's instances: a `CreateInstance` attempt (with
its success) or a `DeleteInstance` of a given handle. -/
inductive InstanceOp
  | createOp (ok : Bool)
  | deleteOp (tok : InstanceTok)
deriving DecidableEq, Repr

def isCreateOk : InstanceOp → Bool
  | .createOp ok => ok
  | _ => false

def isDeleteOp : InstanceOp → Bool
  | .deleteOp _ => true
  | _ => false

/-- Run a sequence of instance operations against one module; `none` means a
precondition violation (deleting a foreign or already-deleted instance). -/
def runInstanceOps (mid : Nat) : InstanceState → List InstanceOp → Option InstanceState
  | st, [] => some st
  | st, .createOp ok :: ops => runInstanceOps mid (createInstance mid ok st).2 ops
  | st, .deleteOp tok :: ops =>
    match deleteInstance mid tok st with
    | some st2 => runInstanceOps mid st2 ops
    | none => none

/-- Bookkeeping invariant: along any valid sequence, live instances grow by
one per successful create and shrink by one per delete. -/
theorem runInstanceOps_length (mid : Nat) (t : List InstanceOp)
    (st st2 : InstanceState) (h : runInstanceOps mid st t = some st2) :
    st2.live.length + t.countP isDeleteOp =
      st.live.length + t.countP isCreateOk := by
  induction t generalizing st with
  | nil =>
    simp only [runInstanceOps, Option.some.injEq] at h
    simp [h]
  | cons op ops ih =>
    cases op with
    | createOp ok =>
      simp only [runInstanceOps] at h
      have hrec := ih _ h
      cases ok with
      | true =>
        have hc : (createInstance mid true st).2 =
            ⟨st.nextSerial + 1, ⟨mid, st.nextSerial⟩ :: st.live⟩ := rfl
        rw [hc] at hrec
        simp only [List.length_cons] at hrec
        simp [List.countP_cons, isCreateOk, isDeleteOp]
        omega
      | false =>
        have hc : (createInstance mid false st).2 = st := rfl
        rw [hc] at hrec
        simp [List.countP_cons, isCreateOk, isDeleteOp]
        omega
    | deleteOp tok =>
      simp only [runInstanceOps] at h
      cases hd : deleteInstance mid tok st with
      | none => rw [hd] at h; exact absurd h (by simp)
      | some st1 =>
        rw [hd] at h
        have hrec := ih _ h
        simp only [deleteInstance] at hd
        by_cases hc : tok.moduleId = mid ∧ tok ∈ st.live
        · rw [if_pos hc] at hd
          have hst1 : st1 = ⟨st.nextSerial, st.live.erase tok⟩ :=
            (Option.some.inj hd).symm
          subst hst1
          simp only at hrec
          have hlen : (st.live.erase tok).length = st.live.length - 1 :=
            List.length_erase_of_mem hc.2
          have hpos : 0 < st.live.length := List.length_pos_of_mem hc.2
          simp [List.countP_cons, isCreateOk, isDeleteOp]
          omega
        · rw [if_neg hc] at hd
          exact absurd hd (by simp)

/-- Same-module invariant: a valid sequence only ever deletes instances whose
handle names this module. -/
theorem runInstanceOps_same_module (mid : Nat) (t : List InstanceOp)
    (st st2 : InstanceState) (h : runInstanceOps mid st t = some st2) :
    ∀ tok, InstanceOp.deleteOp tok ∈ t → tok.moduleId = mid := by
  induction t generalizing st with
  | nil => intro tok htok; simp at htok
  | cons op ops ih =>
    intro tok htok
    cases op with
    | createOp ok =>
      simp only [runInstanceOps] at h
      rcases List.mem_cons.mp htok with h1 | h2
      · exact absurd h1 (by simp)
      · exact ih _ h tok h2
    | deleteOp tok2 =>
      simp only [runInstanceOps] at h
      cases hd : deleteInstance mid tok2 st with
      | none => rw [hd] at h; exact absurd h (by simp)
      | some st1 =>
        rw [hd] at h
        rcases List.mem_cons.mp htok with h1 | h2
        · have htok2 : tok2 = tok := by
            injection h1 with h1; exact h1.symm
          subst htok2
          simp only [deleteInstance] at hd
          by_cases hc : tok2.moduleId = mid ∧ tok2 ∈ st.live
          · exact hc.1
          · rw [if_neg hc] at hd; exact absurd hd (by simp)
        · exact ih _ h tok h2

/-- C3: starting from no outstanding instances, any valid sequence of
`CreateInstance`/`DeleteInstance` calls in which every successful create has
been matched by a delete leaves the module with zero outstanding instances,
and every delete in the sequence targeted an instance of that same module
(no leak, no cross-module transfer). -/
theorem create_delete_no_leak (mid : Nat) (t : List InstanceOp)
    (st2 : InstanceState) (h : runInstanceOps mid ⟨0, []⟩ t = some st2)
    (hmatched : t.countP isDeleteOp = t.countP isCreateOk) :
    st2.live = [] ∧ ∀ tok, InstanceOp.deleteOp tok ∈ t → tok.moduleId = mid := by
  constructor
  · have hlen := runInstanceOps_length mid t ⟨0, []⟩ st2 h
    simp only [List.length_nil] at hlen
    have : st2.live.length = 0 := by omega
    exact List.length_eq_zero.mp this
  · exact runInstanceOps_same_module mid t ⟨0, []⟩ st2 h

/-- The spec's leak test: two successful creations matched by two deletions
on the same module. -/
def demoInstanceTrace : List InstanceOp :=
  [.createOp true, .createOp true, .deleteOp ⟨7, 0⟩, .deleteOp ⟨7, 1⟩]

/-- Concrete instance of `create_delete_no_leak` on module 7. -/
theorem create_delete_no_leak_witness :
    (∃ st2, runInstanceOps 7 ⟨0, []⟩ demoInstanceTrace = some st2 ∧ st2.live = []) ∧
    ∀ tok, InstanceOp.deleteOp tok ∈ demoInstanceTrace → tok.moduleId = 7 := by
  have h : runInstanceOps 7 ⟨0, []⟩ demoInstanceTrace = some ⟨2, []⟩ := by decide
  have hm := create_delete_no_leak 7 demoInstanceTrace ⟨2, []⟩ h (by decide)
  exact ⟨⟨⟨2, []⟩, h, hm.1⟩, hm.2⟩

/-! ## FindPluginPaths -/

/-- The module state a path-providing module carries: the candidate plugin
paths it knows about, in the order it presents them. -/
structure PluginProviderState where
  availablePaths : List PluginPath
deriving DecidableEq, Repr

/-- Result of one `FindPluginPaths` call: the returned path list, the module
state afterwards, the registry's registered-path view afterwards, and the
registration calls performed into the registry. -/
structure FindPathsResult where
  paths : List PluginPath
  moduleState : PluginProviderState
  registeredPaths : List PluginPath
  registrationCalls : List (Nat × EffectIdent)
deriving DecidableEq, Repr

/-- Modelled from the spec: `FindPluginPaths(pluginManager)` is a pure query
returning the ordered paths of plugins available but not yet registered; it
registers nothing and changes neither module nor registry state (no concrete
implementation is in `src/`). -/
def findPluginPaths (m : PluginProviderState) (registeredPaths : List PluginPath) :
    FindPathsResult :=
  { paths := m.availablePaths.filter (fun p => !(registeredPaths.contains p))
    moduleState := m
    registeredPaths := registeredPaths
    registrationCalls := [] }

/-- C5: `FindPluginPaths` performs no registration call, leaves the module
state and the registry state unchanged, and returns an ordered subsequence of
the module's candidate paths consisting exactly of the not-yet-registered
ones. -/
theorem findPluginPaths_pure_query (m : PluginProviderState)
    (registeredPaths : List PluginPath) :
    (findPluginPaths m registeredPaths).registrationCalls = [] ∧
    (findPluginPaths m registeredPaths).moduleState = m ∧
    (findPluginPaths m registeredPaths).registeredPaths = registeredPaths ∧
    List.Sublist (findPluginPaths m registeredPaths).paths m.availablePaths ∧
    (∀ p ∈ (findPluginPaths m registeredPaths).paths, p ∉ registeredPaths) := by
  refine ⟨rfl, rfl, rfl, List.filter_sublist _, ?_⟩
  intro p hp
  have hmem := List.of_mem_filter hp
  simpa using hmem

/-- Concrete instance of `findPluginPaths_pure_query`. -/
theorem findPluginPaths_pure_query_witness :
    (findPluginPaths ⟨["a", "b", "c"]⟩ ["b"]).registrationCalls = [] ∧
    (findPluginPaths ⟨["a", "b", "c"]⟩ ["b"]).paths = ["a", "c"] := by
  have h := findPluginPaths_pure_query ⟨["a", "b", "c"]⟩ ["b"]
  exact ⟨h.1, by decide⟩

/-! ## IsPluginValid -/

/-- A module's validity checks: the cheap (`bFast = true`) existence check
and the thorough (`bFast = false`) validation. -/
structure ValidityModule where
  cheapValid : PluginPath → Bool
  thoroughValid : PluginPath → Bool

/-- Modelled from the spec: `IsPluginValid(path, bFast)` selects between the
cheap and the thorough check and has no side effect on the module (no
concrete implementation is in `src/`). -/
def isPluginValid (m : ValidityModule) (path : PluginPath) (bFast : Bool) :
    Bool × ValidityModule :=
  ((if bFast then m.cheapValid path else m.thoroughValid path), m)

/-- Repeated calls of `IsPluginValid` with the same arguments, each run
against the module state left by the previous one, collecting all results. -/
def iterateIsPluginValid (m : ValidityModule) (path : PluginPath) (bFast : Bool) :
    Nat → List Bool × ValidityModule
  | 0 => ([], m)
  | n + 1 =>
    let prev := iterateIsPluginValid m path bFast n
    let step := isPluginValid prev.2 path bFast
    (prev.1 ++ [step.1], step.2)

/-- C6: `IsPluginValid` is idempotent and side-effect-free — any number of
calls with the same path and fast flag return the same boolean as the first
call and leave the module state unchanged. -/
theorem isPluginValid_idempotent (m : ValidityModule) (path : PluginPath)
    (bFast : Bool) (n : Nat) :
    iterateIsPluginValid m path bFast n =
      (List.replicate n (isPluginValid m path bFast).1, m) := by
  induction n with
  | zero => simp [iterateIsPluginValid]
  | succ k ih =>
    simp only [iterateIsPluginValid, ih]
    simp [isPluginValid, List.replicate_succ']

/-! ## Entry point and embedded registration -/

/-- Host-side module manager capability (`ModuleManagerInterface`). -/
structure ModuleManagerInterfaceM where
  registeredModules : List Nat
deriving DecidableEq, Repr

/-- A module instance as produced by an entry function, identified so that
distinct instances can be told apart. -/
structure ModuleInstanceId where
  instanceId : Nat
deriving DecidableEq, Repr

/-- The module entry point prototype `ModuleMain`:
`ModuleInterface *(*)(ModuleManagerInterface *, const wxString *path)`.
The path pointer may be null (`none`) and the result may be null (`none`) on
failure. -/
def ModuleMainFn := ModuleManagerInterfaceM → Option WxString → Option ModuleInstanceId

/-- `#define MODULE_ENTRY AudacityModule` — the default entry point name
searched for when the module is built as an external library. -/
def MODULE_ENTRY : String := "AudacityModule"

/-- Modelled from the spec: `RegisterBuiltinModule(ModuleMain rtn)` is the
host-global registration function (declared `extern` by
`DECLARE_BUILTIN_MODULE_BASE`, defined in the host); it appends the entry
function pointer to the process-wide list of embedded modules. -/
def RegisterBuiltinModule (l : List ModuleMainFn) (rtn : ModuleMainFn) :
    List ModuleMainFn :=
  l ++ [rtn]

/-- Modelled from the spec: process-wide static initialization in embedded
(`BUILDING_AUDACITY`) mode — each `DECLARE_BUILTIN_MODULE(name)` declares a
static object whose constructor runs `Register()`, which calls
`RegisterBuiltinModule(MODULE_ENTRY)`; the declared modules' initializers run
in some order, starting from the empty host-global list. -/
def runStaticInit (decls : List ModuleMainFn) : List ModuleMainFn :=
  decls.foldl RegisterBuiltinModule []

theorem foldl_RegisterBuiltinModule (decls acc : List ModuleMainFn) :
    decls.foldl RegisterBuiltinModule acc = acc ++ decls := by
  induction decls generalizing acc with
  | nil => simp
  | cons d ds ih => simp [List.foldl_cons, RegisterBuiltinModule, ih]

/-- C7: after static initialization runs the `n` embedded modules'
registration initializers in any order, the host-global list holds exactly
`n` entries — one registration per declared module, none lost, none
duplicated — and whenever the declared entry functions produce pairwise
distinct module instances, so do the registered entries. -/
theorem builtin_registration_complete (decls order : List ModuleMainFn)
    (hperm : List.Perm order decls) :
    runStaticInit order = order ∧
    (runStaticInit order).length = decls.length ∧
    List.Perm (runStaticInit order) decls ∧
    ∀ mgr : ModuleManagerInterfaceM, ∀ path : Option WxString,
      (decls.map (fun e => e mgr path)).Nodup →
      ((runStaticInit order).map (fun e => e mgr path)).Nodup := by
  have hid : runStaticInit order = order := by
    rw [runStaticInit, foldl_RegisterBuiltinModule]
    simp
  refine ⟨hid, ?_, ?_, ?_⟩
  · rw [hid]; exact hperm.length_eq
  · rw [hid]; exact hperm
  · intro mgr path hnd
    rw [hid]
    exact ((hperm.map (fun e => e mgr path)).nodup_iff).mpr hnd

/-- Three fake embedded modules, as in the spec's embedded-mode test. -/
def demoEntryFn (k : Nat) : ModuleMainFn := fun _ _ => some ⟨k⟩

def demoBuiltinDecls : List ModuleMainFn :=
  [demoEntryFn 1, demoEntryFn 2, demoEntryFn 3]

def demoBuiltinOrder : List ModuleMainFn :=
  [demoEntryFn 2, demoEntryFn 1, demoEntryFn 3]

/-- Concrete instance of `builtin_registration_complete`: three embedded
modules registering in a different order still yield exactly three entries,
each producing a distinct instance. -/
theorem builtin_registration_complete_witness :
    (runStaticInit demoBuiltinOrder).length = demoBuiltinDecls.length ∧
    ((runStaticInit demoBuiltinOrder).map (fun e => e ⟨[]⟩ none)).Nodup := by
  have hperm : List.Perm demoBuiltinOrder demoBuiltinDecls :=
    List.Perm.swap (demoEntryFn 1) (demoEntryFn 2) [demoEntryFn 3]
  have h := builtin_registration_complete demoBuiltinDecls demoBuiltinOrder hperm
  refine ⟨h.2.1, h.2.2.2 ⟨[]⟩ none ?_⟩
  decide

/-! ## Entry symbol lookup -/

/-- A loadable unit's exported symbol table: names paired with the entry
functions they resolve to. -/
structure LoadableUnit where
  exportedSymbols : List (String × ModuleMainFn)

/-- The exported symbols carrying the well-known entry name. -/
def entrySymbols (u : LoadableUnit) : List (String × ModuleMainFn) :=
  u.exportedSymbols.filter (fun s => s.1 == MODULE_ENTRY)

/-- Modelled from the spec: each loadable unit exposes exactly one entry
function under the fixed well-known symbol name (the convention itself is
enforced by the build, not by the header). -/
def exposesUniqueEntry (u : LoadableUnit) : Prop :=
  (entrySymbols u).length = 1

/-- Host symbol lookup at load time: resolve the well-known entry name. -/
def lookupEntry (u : LoadableUnit) : Option ModuleMainFn :=
  (entrySymbols u).head?.map Prod.snd

/-- C8: the well-known symbol is `AudacityModule`, and on a unit exposing
exactly one entry function the host lookup resolves it: the resolved
function is exported under `MODULE_ENTRY` and is the only such export.  Its
type `ModuleMainFn` is the `ModuleMain` prototype: registry and optional
(nullable) path in, nullable module instance out. -/
theorem entry_symbol_unique (u : LoadableUnit) (hu : exposesUniqueEntry u) :
    MODULE_ENTRY = "AudacityModule" ∧
    ∃ f, lookupEntry u = some f ∧ (MODULE_ENTRY, f) ∈ u.exportedSymbols ∧
      ∀ g, (MODULE_ENTRY, g) ∈ u.exportedSymbols → g = f := by
  refine ⟨rfl, ?_⟩
  obtain ⟨e, he⟩ := List.length_eq_one.mp hu
  have hmem : e ∈ entrySymbols u := by rw [he]; exact List.mem_singleton.mpr rfl
  have hmem2 := List.mem_filter.mp hmem
  have hname : e.1 = MODULE_ENTRY := by
    have := hmem2.2
    simpa using this
  refine ⟨e.2, ?_, ?_, ?_⟩
  · rw [lookupEntry, he]
    rfl
  · have : (MODULE_ENTRY, e.2) = e := by
      rw [← hname]
    rw [this]
    exact hmem2.1
  · intro g hg
    have hgf : (MODULE_ENTRY, g) ∈ entrySymbols u := by
      refine List.mem_filter.mpr ⟨hg, ?_⟩
      simp
    rw [he] at hgf
    have := List.mem_singleton.mp hgf
    have : g = e.2 := congrArg Prod.snd this
    exact this

/-- A loadable unit exporting one entry symbol among other exports. -/
def demoUnit : LoadableUnit :=
  ⟨[("GetVersionString", demoEntryFn 9), ("AudacityModule", demoEntryFn 1)]⟩

/-- Concrete instance of `entry_symbol_unique` on `demoUnit`. -/
theorem entry_symbol_unique_witness :
    MODULE_ENTRY = "AudacityModule" ∧
    ∃ f, lookupEntry demoUnit = some f ∧
      (MODULE_ENTRY, f) ∈ demoUnit.exportedSymbols ∧
      ∀ g, (MODULE_ENTRY, g) ∈ demoUnit.exportedSymbols → g = f :=
  entry_symbol_unique demoUnit (by rfl)

/-! ## Drag-and-drop installation -/

/-- What a module reports for drag-and-drop installation: its
`FileExtensions()` result and its `InstallPath()` result. -/
structure InstallSurface where
  fileExtensions : List String
  installPath : String
deriving DecidableEq, Repr

/-- Modelled from the header comment on `InstallPath`: drag-and-drop is
supported only if `FileExtensions()` returns nonempty and `InstallPath()`
returns nonempty. -/
def supportsDragAndDrop (m : InstallSurface) : Bool :=
  !m.fileExtensions.isEmpty && !m.installPath.isEmpty

/-- Modelled from the header comment on `FileExtensions`: the module's paths
are real installable files only when the extension list is nonempty. -/
def pathsAreRealFiles (m : InstallSurface) : Bool :=
  !m.fileExtensions.isEmpty

/-- A file extension is an install candidate when it is listed, or when the
listed extensions include the empty string (meaning any file). -/
def isInstallCandidate (m : InstallSurface) (ext : String) : Bool :=
  m.fileExtensions.contains ext || m.fileExtensions.contains ""

/-- C9: drag-and-drop installation is supported exactly when both
`FileExtensions()` and `InstallPath()` are nonempty; an empty extension list
means the module's paths are never real installable files (and excludes
drag-and-drop); an empty install path excludes drag-and-drop; and an empty
string among the listed extensions makes every file a candidate. -/
theorem dragAndDrop_characterization (m : InstallSurface) :
    (supportsDragAndDrop m = true ↔
      (m.fileExtensions ≠ [] ∧ m.installPath ≠ "")) ∧
    (m.fileExtensions = [] →
      supportsDragAndDrop m = false ∧ pathsAreRealFiles m = false) ∧
    (m.installPath = "" → supportsDragAndDrop m = false) ∧
    ("" ∈ m.fileExtensions → ∀ ext, isInstallCandidate m ext = true) := by
  refine ⟨?_, ?_, ?_, ?_⟩
  · rw [supportsDragAndDrop]
    rw [Bool.and_eq_true, Bool.not_eq_true', Bool.not_eq_true']
    constructor
    · rintro ⟨h1, h2⟩
      refine ⟨?_, ?_⟩
      · intro hnil
        rw [hnil] at h1
        simp [List.isEmpty] at h1
      · intro hempty
        rw [hempty] at h2
        exact absurd h2 (by decide)
    · rintro ⟨h1, h2⟩
      refine ⟨?_, ?_⟩
      · rw [Bool.eq_false_iff]
        intro hx
        exact h1 (List.isEmpty_iff.mp hx)
      · rw [Bool.eq_false_iff]
        intro hx
        exact h2 ((String.isEmpty_iff m.installPath).mp hx)
  · intro hnil
    rw [supportsDragAndDrop, pathsAreRealFiles, hnil]
    simp [List.isEmpty]
  · intro hempty
    rw [supportsDragAndDrop, hempty]
    have hq : ("" : String).isEmpty = true := by decide
    rw [hq]
    simp
  · intro hmem ext
    rw [isInstallCandidate]
    have : m.fileExtensions.contains "" = true :=
      List.elem_eq_true_of_mem hmem
    rw [this]
    simp

/-- Concrete instance of `dragAndDrop_characterization`: a module accepting
`.ny` files installed into `plug-ins`. -/
theorem dragAndDrop_characterization_witness :
    (supportsDragAndDrop ⟨["ny"], "plug-ins"⟩ = true ↔
      ((["ny"] : List String) ≠ [] ∧ ("plug-ins" : String) ≠ "")) ∧
    supportsDragAndDrop ⟨["ny"], "plug-ins"⟩ = true := by
  have h := dragAndDrop_characterization ⟨["ny"], "plug-ins"⟩
  exact ⟨h.1, by decide⟩

/-! ## Identity base class and virtual destructor -/

/-- The identity capability (`IdentInterface`, declared in
`audacity/IdentInterface.h`, included by the header): the queries available
on every module. -/
structure IdentInterfaceM where
  symbolName : String
  displayName : String
deriving DecidableEq, Repr

/-- A live module object.  `ModuleInterface` publicly extends
`IdentInterface` (embedded as structure extension), carries its current
lifecycle state, and — since `~ModuleInterface` is declared `virtual` — a
destructor slot that the concrete derived module installs and that
destruction through a base pointer dispatches to. -/
structure ModuleObject extends IdentInterfaceM where
  lifecycle : LifecycleState
  onDestroy : Nat → Nat

/-- An identity query, answered by the `IdentInterface` base subobject. -/
def getSymbolName (m : ModuleObject) : String :=
  m.toIdentInterfaceM.symbolName

def setLifecycle (m : ModuleObject) (s : LifecycleState) : ModuleObject :=
  { m with lifecycle := s }

/-- Constructing a concrete module: the concrete class's destructor `d` is
installed in the virtual destructor slot. -/
def mkConcreteModule (ident : IdentInterfaceM) (d : Nat → Nat) : ModuleObject :=
  { toIdentInterfaceM := ident, lifecycle := .constructed, onDestroy := d }

/-- Deleting through a `ModuleInterface *` dispatches through the virtual
destructor slot. -/
def destroyThroughBase (m : ModuleObject) (world : Nat) : Nat :=
  m.onDestroy world

/-- C10: every module carries its `IdentInterface` base, so identity queries
answer from it unchanged in every lifecycle state — before `Initialize`,
after `Terminate`, in any state whatsoever — and destroying a concrete
module through a `ModuleInterface` pointer invokes the concrete module's
destructor. -/
theorem ident_base_and_virtual_destructor (ident : IdentInterfaceM)
    (d : Nat → Nat) (s : LifecycleState) (world : Nat) :
    getSymbolName (setLifecycle (mkConcreteModule ident d) s) = ident.symbolName ∧
    (setLifecycle (mkConcreteModule ident d) s).toIdentInterfaceM = ident ∧
    destroyThroughBase (setLifecycle (mkConcreteModule ident d) s) world = d world :=
  ⟨rfl, rfl, rfl⟩

end AudacityModule
